import Mathlib

/-!
Shallow embedding of `src/collager.py` (the `Collager` class) and proofs of
the specification's claims about it.

Modelling conventions:
- Python floats are embedded as exact rationals (`ℚ`); the spec's
  "within floating-point tolerance" statements become exact equalities.
- PIL images are embedded by their dimensions (`Img`), which is all the
  claims speak about; `crop` and `resize` act on dimensions.
- `random.choice` is embedded as `choice`, reading an index from an
  abstract random stream `rnd : Nat → Nat`; on an empty list it fails
  (Python raises `IndexError`).
- The unbounded `while` loops of `create_line` are embedded with explicit
  fuel; running out of fuel is the distinguished outcome `.outOfFuel`,
  different from the genuine Python errors (`IndexError`,
  `ZeroDivisionError`), which get their own constructors.
- `os.listdir`, `os.path.isfile` and image decoding are external
  effects, embedded as oracle functions passed in as parameters.
-/

deriving instance DecidableEq for Except

namespace Collager

/-- Python3 `round`: round half to even (banker's rounding), on exact
rationals. -/
def py_round (q : ℚ) : ℤ :=
  if Int.fract q < 1/2 then ⌊q⌋
  else if 1/2 < Int.fract q then ⌊q⌋ + 1
  else if ⌊q⌋ % 2 = 0 then ⌊q⌋ else ⌊q⌋ + 1

/-- A PIL image, embedded by its dimensions. -/
structure Img where
  width : Nat
  height : Nat
deriving DecidableEq

/-- `Image.resize((w, h), ...)`: the output has exactly the requested
dimensions. -/
def resize (_img : Img) (w h : Nat) : Img := ⟨w, h⟩

/-- The `scale_method` argument (`Image.Resampling`); it never affects
dimensions. -/
inductive Resampling
  | nearest
  | bilinear
  | bicubic
  | lanczos
deriving DecidableEq

/-- One entry of `image_data`: a dict `{"path": ..., "ratio": ...}`. -/
structure ImageRecord where
  path : String
  ratio : ℚ
deriving DecidableEq

/-- `Collager.file_extensions`. -/
def file_extensions : List String := ["jpg", "jpeg", "png", "bmp"]

/-- The local helper `sum_ratios` of `create_line`:
`sum([item["ratio"] for item in items])`. -/
def sum_ratios (items : List ImageRecord) : ℚ :=
  (items.map fun item => item.ratio).sum

/-- `random.choice(l)` with the drawn index supplied by the random source:
`some` element for a non-empty list, `none` (Python: `IndexError`) for an
empty one. -/
def choice (l : List α) (k : Nat) : Option α :=
  l.get? (k % l.length)

/-- `Collager.center_crop(img, height, crop_ratio, scale_method)`:
crop box per the wider/taller comparison, then resize to
`(round(height * crop_ratio), height)`. -/
def center_crop (img : Img) (height : Nat) (crop_ratio : ℚ)
    (_scale_method : Resampling) : Img :=
  let width := (py_round ((height : ℚ) * crop_ratio)).toNat
  let size : ℤ × ℤ × ℤ × ℤ :=
    if crop_ratio < (img.width : ℚ) / (img.height : ℚ) then
      -- crop the left and right edges
      let offset := py_round (((img.width : ℚ) - crop_ratio * (img.height : ℚ)) / 2)
      (offset, 0, (img.width : ℤ) - offset, (img.height : ℤ))
    else
      -- crop the top and bottom edges
      let offset := py_round (((img.height : ℚ) - (img.width : ℚ) / crop_ratio) / 2)
      (0, offset, (img.width : ℤ), (img.height : ℤ) - offset)
  let cropped : Img := ⟨(size.2.2.1 - size.1).toNat, (size.2.2.2 - size.2.1).toNat⟩
  resize cropped width height

/-- `os.path.join(path, file)` on POSIX, as the source uses it. -/
def path_join (path file : String) : String :=
  if file.data.head? = some '/' then file
  else if path = "" then file
  else if path.data.getLast? = some '/' then path ++ file
  else path ++ "/" ++ file

/-- The extension part of `os.path.splitext(p)[1][1:]`: the text after the
last dot of the basename, empty when the basename has no dot after its
leading dots (Python treats leading dots as part of the root, so `.hidden`
has no extension while `.hidden.jpg` has extension `jpg`). -/
def splitext_ext (s : List Char) : List Char :=
  let rev := s.reverse
  let pre := rev.takeWhile fun c => ¬ (c = '.' ∨ c = '/')
  match rev.drop pre.length with
  | '.' :: tail =>
      if (tail.takeWhile fun c => ¬ c = '/').any (fun c => ¬ c = '.') then
        pre.reverse
      else []
  | _ => []

/-- `Collager.get_files(path, ext)`: map `os.listdir(path)` through
`os.path.join`, then filter on `os.path.isfile`, `not file.startswith(".")`
and the extension allow-list.  Note the `startswith` test runs on the
JOINED path, exactly as in the source. -/
def get_files (isfile : String → Bool) (listdir : String → List String)
    (path : String) (ext : List String) : List String :=
  ((listdir path).map fun file => path_join path file).filter
    fun file =>
      isfile file &&
      !(file.data.head? = some '.' : Bool) &&
      ext.contains (String.mk (splitext_ext file.data))

/-- `Collager.get_aspect_ratios(images)`: probe each file with the image
codec; a decodable file of dimensions `(w, h)` contributes
`{"path": p, "ratio": w / h}`, a broken file is dropped (and logged). -/
def get_aspect_ratios (probe : String → Option (Nat × Nat))
    (images : List String) : List ImageRecord :=
  images.filterMap fun p =>
    match probe p with
    | some wh => some ⟨p, (wh.1 : ℚ) / (wh.2 : ℚ)⟩
    | none => none

/-- The possible runtime argument of `update_path`: a `str`, a `list`, or
any other value. -/
inductive PathArg
  | single (p : String)
  | many (ps : List String)
  | other
deriving DecidableEq

/-- The error raised by `update_path` on a bad argument type. -/
inductive UpdateErr
  | typeError
deriving DecidableEq

/-- The scanning state the `Collager` instance carries. -/
structure CollagerState where
  image_path : List String
  image_files : List String
  image_data : List ImageRecord
deriving DecidableEq

/-- `Collager.update_path(path)`: dispatch on the runtime type of the
argument; a `str` or a `list` is scanned, anything else raises
`TypeError` at once. -/
def update_path (isfile : String → Bool) (listdir : String → List String)
    (probe : String → Option (Nat × Nat)) :
    PathArg → Except UpdateErr CollagerState
  | .single p =>
      let files := get_files isfile listdir p file_extensions
      .ok ⟨[p], files, get_aspect_ratios probe files⟩
  | .many ps =>
      let files := (ps.map fun p => get_files isfile listdir p file_extensions).flatten
      .ok ⟨ps, files, get_aspect_ratios probe files⟩
  | .other => .error .typeError

/-- `Collager.__init__(path)` just calls `update_path(path)`. -/
def collager_init (isfile : String → Bool) (listdir : String → List String)
    (probe : String → Option (Nat × Nat)) (path : PathArg) :
    Except UpdateErr CollagerState :=
  update_path isfile listdir probe path

/-- The outcomes `create_line` can produce besides a line: the genuine
Python exceptions (`IndexError` from `random.choice` on an empty sequence,
`ZeroDivisionError` from a division by zero), and fuel exhaustion of the
embedding, standing for a run of the unbounded loops longer than the given
bound. -/
inductive LineErr
  | indexError
  | zeroDivision
  | outOfFuel
deriving DecidableEq

/-- The inner `while sum_ratios(selected_ratios) < min_ratio` loop of
`create_line`: keep appending `choice(image_data)` until the running ratio
sum reaches `min_ratio`.  Returns the selection and the next unread
position of the random stream. -/
def fill_selection (image_data : List ImageRecord) (min_ratio : ℚ)
    (rnd : Nat → Nat) :
    Nat → List ImageRecord → Nat → Except LineErr (List ImageRecord × Nat)
  | 0, _, _ => .error .outOfFuel
  | fuel + 1, sel, k =>
      if sum_ratios sel < min_ratio then
        match choice image_data (rnd k) with
        | some item => fill_selection image_data min_ratio rnd fuel (sel ++ [item]) k.succ
        | none => .error .indexError
      else .ok (sel, k)

/-- The outer `while selected_ratios == []` loop of `create_line`:
each pass bumps `iters`, refills the selection from empty, and discards it
again when its ratio sum exceeds `max_ratio`.  Returns the accepted
selection, the attempt count and the next unread position of the random
stream. -/
def select_line (image_data : List ImageRecord) (min_ratio max_ratio : ℚ)
    (rnd : Nat → Nat) (inner_fuel : Nat) :
    Nat → Nat → Nat → Except LineErr (List ImageRecord × Nat × Nat)
  | 0, _, _ => .error .outOfFuel
  | fuel + 1, iters, k =>
      match fill_selection image_data min_ratio rnd inner_fuel [] k with
      | .error e => .error e
      | .ok (sel, k2) =>
          if max_ratio < sum_ratios sel then
            select_line image_data min_ratio max_ratio rnd inner_fuel fuel iters.succ k2
          else if sel = [] then
            select_line image_data min_ratio max_ratio rnd inner_fuel fuel iters.succ k2
          else .ok (sel, iters.succ, k2)

/-- The ratio-correction step of `create_line`:
`item["ratio"] + ratio_delta * item["ratio"] / curr_ratio` with
`curr_ratio = sum_ratios(selected_ratios)` and
`ratio_delta = line_ratio - curr_ratio`. -/
def adjust_ratios (line_ratio : ℚ) (sel : List ImageRecord) : List ℚ :=
  let curr_ratio := sum_ratios sel
  let ratio_delta := line_ratio - curr_ratio
  sel.map fun item => item.ratio + ratio_delta * item.ratio / curr_ratio

/-- What one `create_line` call produces: the accepted selection, the
corrected ratios, the widths of the per-image crops, the strip image, the
attempt count `iters`, and the next unread position of the random
stream. -/
structure LineResult where
  sel : List ImageRecord
  new_ratios : List ℚ
  widths : List Nat
  strip : Img
  iters : Nat
  next_k : Nat
deriving DecidableEq

/-- `Collager.create_line(image_data, width, line_height, ratio_delta,
scale_method)`.  Each Python division is guarded: where the source would
raise `ZeroDivisionError` the embedding returns `.error .zeroDivision`, in
source order (`line_ratio` first, then `min_ratio`, then `max_ratio`, then
the correction's `/ curr_ratio`). -/
def create_line (decode : String → Img) (image_data : List ImageRecord)
    (width line_height : Nat) (ratio_delta : ℚ) (scale_method : Resampling)
    (rnd : Nat → Nat) (fuel : Nat) (k0 : Nat) : Except LineErr LineResult :=
  let height_shift := ratio_delta * (line_height : ℚ)
  if (line_height : ℚ) = 0 then .error .zeroDivision else
  let line_ratio := (width : ℚ) / (line_height : ℚ)
  if (line_height : ℚ) + height_shift = 0 then .error .zeroDivision else
  let min_ratio := (width : ℚ) / ((line_height : ℚ) + height_shift)
  if (line_height : ℚ) - height_shift = 0 then .error .zeroDivision else
  let max_ratio := (width : ℚ) / ((line_height : ℚ) - height_shift)
  match select_line image_data min_ratio max_ratio rnd fuel fuel 0 k0 with
  | .error e => .error e
  | .ok (sel, iters, k2) =>
      if sum_ratios sel = 0 ∧ ¬ sel = [] then .error .zeroDivision else
      let new_ratios := adjust_ratios line_ratio sel
      let resized := (sel.zip new_ratios).map fun p =>
        center_crop (decode p.1.path) line_height p.2 scale_method
      let sum_width := (resized.map fun img => img.width).sum
      let line : Img := ⟨sum_width, line_height⟩
      .ok ⟨sel, new_ratios, resized.map fun img => img.width,
           resize line width line_height, iters, k2⟩

/-- One `collage.paste(line, (x, y))` call recorded by the embedding. -/
structure Paste where
  img : Img
  x : Nat
  y : Nat
deriving DecidableEq

/-- The `for line_n in range(lines)` loop of `collage`: build each line
with `create_line` and paste it at `(0, line_n * line_height)`.  Returns
the pastes, the per-line attempt counts and the next unread position of
the random stream. -/
def collage_lines (decode : String → Img) (image_data : List ImageRecord)
    (width line_height : Nat) (ratio_delta : ℚ) (scale_method : Resampling)
    (rnd : Nat → Nat) (fuel : Nat) :
    Nat → Nat → Nat → Except LineErr (List Paste × List Nat × Nat)
  | 0, _, k => .ok ([], [], k)
  | n + 1, line_n, k =>
      match create_line decode image_data width line_height ratio_delta
          scale_method rnd fuel k with
      | .error e => .error e
      | .ok res =>
          match collage_lines decode image_data width line_height ratio_delta
              scale_method rnd fuel n line_n.succ res.next_k with
          | .error e => .error e
          | .ok (ps, its, k2) =>
              .ok (⟨res.strip, 0, line_n * line_height⟩ :: ps, res.iters :: its, k2)

/-- What one `collage` call produces: the computed `line_height`, the
intermediate `Image.new("RGBA", (width, line_height * lines))`, the paste
operations, the per-line attempt counts, and the final resized image. -/
structure CollageResult where
  line_height : Nat
  intermediate : Img
  pastes : List Paste
  iters_list : List Nat
  final : Img
deriving DecidableEq

/-- `Collager.collage(width, height, lines, ratio_delta, scale_method)`:
`line_height = height // lines` (guarded: `lines = 0` would raise
`ZeroDivisionError`), one `create_line` per line pasted at
`(0, line_n * line_height)` into an image of height `line_height * lines`,
then a final resize to `(width, height)`. -/
def collage (decode : String → Img) (image_data : List ImageRecord)
    (width height lines : Nat) (ratio_delta : ℚ) (scale_method : Resampling)
    (rnd : Nat → Nat) (fuel : Nat) : Except LineErr CollageResult :=
  if lines = 0 then .error .zeroDivision else
  let line_height := height / lines
  let intermediate : Img := ⟨width, line_height * lines⟩
  match collage_lines decode image_data width line_height ratio_delta
      scale_method rnd fuel lines 0 0 with
  | .error e => .error e
  | .ok (ps, its, _) =>
      .ok ⟨line_height, intermediate, ps, its, resize intermediate width height⟩

/-! ### Helper lemmas about the selection loops -/

/-- When the inner filling loop returns a selection, its ratio sum has
reached `min_ratio` (the loop's exit condition). -/
theorem fill_selection_min_le (image_data : List ImageRecord) (min_ratio : ℚ)
    (rnd : Nat → Nat) :
    ∀ fuel sel k sel2 k2,
      fill_selection image_data min_ratio rnd fuel sel k = .ok (sel2, k2) →
      min_ratio ≤ sum_ratios sel2 := by
  intro fuel
  induction fuel with
  | zero =>
      intro sel k sel2 k2 h
      simp [fill_selection] at h
  | succ n ih =>
      intro sel k sel2 k2 h
      rw [fill_selection] at h
      split at h
      · cases hc : choice image_data (rnd k) with
        | none => rw [hc] at h; simp at h
        | some item => rw [hc] at h; exact ih _ _ _ _ h
      · next hge =>
          obtain ⟨rfl, rfl⟩ : sel = sel2 ∧ k = k2 := by
            simpa using h
          exact le_of_not_lt hge

/-- When the outer rejection-sampling loop returns, the selection's ratio
sum lies in the acceptance band and the selection is non-empty. -/
theorem select_line_ok (image_data : List ImageRecord) (min_ratio max_ratio : ℚ)
    (rnd : Nat → Nat) (inner_fuel : Nat) :
    ∀ fuel iters k sel it k2,
      select_line image_data min_ratio max_ratio rnd inner_fuel fuel iters k =
        .ok (sel, it, k2) →
      min_ratio ≤ sum_ratios sel ∧ sum_ratios sel ≤ max_ratio ∧ ¬ sel = [] := by
  intro fuel
  induction fuel with
  | zero =>
      intro iters k sel it k2 h
      simp [select_line] at h
  | succ n ih =>
      intro iters k sel it k2 h
      rw [select_line] at h
      split at h
      · simp at h
      · next s k3 heq =>
          split at h
          · exact ih _ _ _ _ _ h
          · split at h
            · exact ih _ _ _ _ _ h
            · next hmax hne =>
                obtain ⟨rfl, rfl, rfl⟩ : s = sel ∧ iters.succ = it ∧ k3 = k2 := by
                  simpa using h
                exact ⟨fill_selection_min_le image_data min_ratio rnd inner_fuel [] k s k3 heq,
                  le_of_not_lt hmax, hne⟩

/-- The proportional correction restores the target ratio sum exactly:
for `C = sum_ratios sel ≠ 0`, the corrected ratios sum to `line_ratio`. -/
theorem adjust_ratios_sum (line_ratio : ℚ) (sel : List ImageRecord)
    (h : ¬ sum_ratios sel = 0) :
    (adjust_ratios line_ratio sel).sum = line_ratio := by
  unfold adjust_ratios
  have hmap :
      (sel.map fun item =>
        item.ratio + (line_ratio - sum_ratios sel) * item.ratio / sum_ratios sel) =
      sel.map fun item =>
        item.ratio * (1 + (line_ratio - sum_ratios sel) / sum_ratios sel) := by
    apply List.map_congr_left
    intro item _
    ring
  rw [hmap, List.sum_map_mul_right]
  rw [show (sel.map fun item => item.ratio).sum = sum_ratios sel from rfl]
  field_simp

/-- Inverting a successful `create_line` run: the selection was accepted by
the rejection-sampling loop (ratio sum within the derived bounds, selection
non-empty, ratio sum non-zero) and the returned ratios are the corrected
ones. -/
theorem create_line_ok_inv (decode : String → Img) (image_data : List ImageRecord)
    (width line_height : Nat) (ratio_delta : ℚ) (scale_method : Resampling)
    (rnd : Nat → Nat) (fuel k0 : Nat) (res : LineResult)
    (h : create_line decode image_data width line_height ratio_delta scale_method
        rnd fuel k0 = .ok res) :
    (width : ℚ) / ((line_height : ℚ) + ratio_delta * (line_height : ℚ)) ≤
        sum_ratios res.sel ∧
    sum_ratios res.sel ≤
        (width : ℚ) / ((line_height : ℚ) - ratio_delta * (line_height : ℚ)) ∧
    ¬ res.sel = [] ∧ ¬ sum_ratios res.sel = 0 ∧
    res.new_ratios = adjust_ratios ((width : ℚ) / (line_height : ℚ)) res.sel := by
  simp only [create_line] at h
  split at h
  · simp at h
  · split at h
    · simp at h
    · split at h
      · simp at h
      · split at h
        · simp at h
        · next sel iters k2 heq =>
            split at h
            · simp at h
            · next hguard =>
                injection h with h2
                obtain ⟨hmin, hmax, hne⟩ :=
                  select_line_ok _ _ _ _ _ _ _ _ _ _ _ heq
                subst h2
                exact ⟨hmin, hmax, hne, fun h0 => hguard ⟨h0, hne⟩, rfl⟩

/-! ### The claims -/

/-- C1: for every selection accepted by `create_line`, with total ratio
`C = sum_ratios sel` and ideal line ratio `R = width / line_height`, the
corrected ratios `ratio_i + (R - C) * ratio_i / C` sum exactly (over `ℚ`)
to `R`. -/
theorem create_line_corrected_sum (decode : String → Img)
    (image_data : List ImageRecord) (width line_height : Nat) (ratio_delta : ℚ)
    (scale_method : Resampling) (rnd : Nat → Nat) (fuel k0 : Nat) (res : LineResult)
    (h : create_line decode image_data width line_height ratio_delta scale_method
        rnd fuel k0 = .ok res) :
    res.new_ratios.sum = (width : ℚ) / (line_height : ℚ) := by
  obtain ⟨-, -, -, hC, hnew⟩ :=
    create_line_ok_inv decode image_data width line_height ratio_delta scale_method
      rnd fuel k0 res h
  rw [hnew]
  exact adjust_ratios_sum _ _ hC

theorem create_line_corrected_sum_witness :
    (⟨[⟨"a", 2⟩], [2], [200], ⟨200, 100⟩, 1, 1⟩ : LineResult).new_ratios.sum =
      ((200 : Nat) : ℚ) / ((100 : Nat) : ℚ) :=
  create_line_corrected_sum (fun _ => ⟨200, 100⟩) [⟨"a", 2⟩] 200 100 (1/20)
    .lanczos (fun _ => 0) 3 0 ⟨[⟨"a", 2⟩], [2], [200], ⟨200, 100⟩, 1, 1⟩
    (by with_unfolding_all decide)

/-- C2: whenever `create_line`'s rejection-sampling loop accepts a
selection, the uncorrected ratio sum lies between
`width / (line_height + tolerance * line_height)` and
`width / (line_height - tolerance * line_height)`. -/
theorem create_line_accepted_band (decode : String → Img)
    (image_data : List ImageRecord) (width line_height : Nat) (ratio_delta : ℚ)
    (scale_method : Resampling) (rnd : Nat → Nat) (fuel k0 : Nat) (res : LineResult)
    (hcat : ¬ image_data = []) (hpos : ∀ item ∈ image_data, 0 < item.ratio)
    (hw : 0 < width) (hl : 0 < line_height)
    (ht0 : 0 ≤ ratio_delta) (ht1 : ratio_delta < 1)
    (h : create_line decode image_data width line_height ratio_delta scale_method
        rnd fuel k0 = .ok res) :
    (width : ℚ) / ((line_height : ℚ) + ratio_delta * (line_height : ℚ)) ≤
        sum_ratios res.sel ∧
    sum_ratios res.sel ≤
        (width : ℚ) / ((line_height : ℚ) - ratio_delta * (line_height : ℚ)) := by
  obtain ⟨h1, h2, -⟩ :=
    create_line_ok_inv decode image_data width line_height ratio_delta scale_method
      rnd fuel k0 res h
  exact ⟨h1, h2⟩

theorem create_line_accepted_band_witness :
    ((200 : Nat) : ℚ) / (((100 : Nat) : ℚ) + (1/20) * ((100 : Nat) : ℚ)) ≤
        sum_ratios [⟨"a", 2⟩] ∧
    sum_ratios [⟨"a", 2⟩] ≤
        ((200 : Nat) : ℚ) / (((100 : Nat) : ℚ) - (1/20) * ((100 : Nat) : ℚ)) :=
  create_line_accepted_band (fun _ => ⟨200, 100⟩) [⟨"a", 2⟩] 200 100 (1/20)
    .lanczos (fun _ => 0) 3 0 ⟨[⟨"a", 2⟩], [2], [200], ⟨200, 100⟩, 1, 1⟩
    (by decide) (by with_unfolding_all decide) (by decide) (by decide)
    (by with_unfolding_all decide) (by with_unfolding_all decide)
    (by with_unfolding_all decide)

/-- With a one-image catalog whose ratio already reaches `min_ratio`, the
filling loop stops after exactly one draw. -/
theorem fill_selection_single (img : ImageRecord) (min_ratio : ℚ)
    (rnd : Nat → Nat) (f k : Nat)
    (h0 : 0 < min_ratio) (h1 : min_ratio ≤ img.ratio) :
    fill_selection [img] min_ratio rnd (f + 2) [] k = .ok ([img], k + 1) := by
  rw [fill_selection, if_pos (by simpa [sum_ratios] using h0)]
  have hc : choice [img] (rnd k) = some img := by
    simp [choice, Nat.mod_one]
  simp only [hc, List.nil_append]
  rw [fill_selection, if_neg (by simpa [sum_ratios] using not_lt.mpr h1)]

/-- With a one-image catalog whose ratio reaches `min_ratio`, the filling
loop either runs out of fuel or returns that image after one draw. -/
theorem fill_selection_single_cases (img : ImageRecord) (min_ratio : ℚ)
    (rnd : Nat → Nat) (g k : Nat)
    (h0 : 0 < min_ratio) (h1 : min_ratio ≤ img.ratio) :
    fill_selection [img] min_ratio rnd g [] k = .error .outOfFuel ∨
    fill_selection [img] min_ratio rnd g [] k = .ok ([img], k + 1) := by
  match g with
  | 0 => exact .inl rfl
  | 1 =>
      left
      rw [fill_selection, if_pos (by simpa [sum_ratios] using h0)]
      have hc : choice [img] (rnd k) = some img := by
        simp [choice, Nat.mod_one]
      simp only [hc]
      rfl
  | g + 2 => exact .inr (fill_selection_single img min_ratio rnd g k h0 h1)

/-- With a one-image catalog whose ratio exceeds `max_ratio`, every pass of
the rejection-sampling loop discards its selection: the loop consumes any
amount of fuel without returning. -/
theorem select_line_oversized (img : ImageRecord) (min_ratio max_ratio : ℚ)
    (rnd : Nat → Nat) (inner_fuel : Nat)
    (h0 : 0 < min_ratio) (h1 : min_ratio ≤ img.ratio)
    (h2 : max_ratio < img.ratio) :
    ∀ fuel iters k,
      select_line [img] min_ratio max_ratio rnd inner_fuel fuel iters k =
        .error .outOfFuel := by
  intro fuel
  induction fuel with
  | zero => intro iters k; rfl
  | succ n ih =>
      intro iters k
      rw [select_line]
      rcases fill_selection_single_cases img min_ratio rnd inner_fuel k h0 h1 with
        hf | hf
      · simp only [hf]
      · simp only [hf]
        rw [if_pos (by simpa [sum_ratios] using h2)]
        exact ih _ _

/-- With a one-image catalog whose ratio lies inside the band, the
rejection-sampling loop accepts on its first pass. -/
theorem select_line_single_fit (img : ImageRecord) (min_ratio max_ratio : ℚ)
    (rnd : Nat → Nat) (f g iters k : Nat)
    (h0 : 0 < min_ratio) (h1 : min_ratio ≤ img.ratio)
    (h2 : ¬ max_ratio < img.ratio) :
    select_line [img] min_ratio max_ratio rnd (f + 2) (g + 1) iters k =
      .ok ([img], iters + 1, k + 1) := by
  rw [select_line]
  simp only [fill_selection_single img min_ratio rnd f k h0 h1]
  rw [if_neg (by simpa [sum_ratios] using h2), if_neg (by simp)]

/-- C3: on a catalog holding exactly one image whose ratio lies within
`[min_ratio, max_ratio]`, `create_line` accepts on the first pass and
returns attempt count exactly 1. -/
theorem create_line_single_fit (decode : String → Img) (img : ImageRecord)
    (width line_height : Nat) (ratio_delta : ℚ) (scale_method : Resampling)
    (rnd : Nat → Nat) (fuel k0 : Nat)
    (hw : 0 < width) (hl : 0 < line_height)
    (ht0 : 0 ≤ ratio_delta) (ht1 : ratio_delta < 1)
    (hmin : (width : ℚ) / ((line_height : ℚ) + ratio_delta * (line_height : ℚ)) ≤
      img.ratio)
    (hmax : img.ratio ≤
      (width : ℚ) / ((line_height : ℚ) - ratio_delta * (line_height : ℚ)))
    (hfuel : 2 ≤ fuel) :
    ∃ res, create_line decode [img] width line_height ratio_delta scale_method
        rnd fuel k0 = .ok res ∧ res.iters = 1 ∧ res.sel = [img] := by
  obtain ⟨f, rfl⟩ : ∃ f, fuel = f + 2 := ⟨fuel - 2, by omega⟩
  have hwq : (0 : ℚ) < (width : ℚ) := by exact_mod_cast hw
  have hlq : (0 : ℚ) < (line_height : ℚ) := by exact_mod_cast hl
  have hden1 : (0 : ℚ) < (line_height : ℚ) + ratio_delta * (line_height : ℚ) := by
    have := mul_nonneg ht0 hlq.le
    linarith
  have hden2 : (0 : ℚ) < (line_height : ℚ) - ratio_delta * (line_height : ℚ) := by
    have := mul_lt_mul_of_pos_right ht1 hlq
    linarith
  have hmin0 : (0 : ℚ) <
      (width : ℚ) / ((line_height : ℚ) + ratio_delta * (line_height : ℚ)) :=
    div_pos hwq hden1
  simp only [create_line]
  rw [if_neg hlq.ne', if_neg hden1.ne', if_neg hden2.ne']
  simp only [select_line_single_fit img _ _ rnd f (f + 1) 0 k0 hmin0 hmin
    (not_lt.mpr hmax)]
  rw [if_neg (by
    simp only [sum_ratios, List.map_cons, List.map_nil, List.sum_cons,
      List.sum_nil, add_zero]
    exact fun hc => absurd hc.1 (ne_of_gt (lt_of_lt_of_le hmin0 hmin)))]
  exact ⟨_, rfl, rfl, rfl⟩

theorem create_line_single_fit_witness :
    ∃ res, create_line (fun _ => ⟨200, 100⟩) [⟨"a", 2⟩] 200 100 (1/20) .lanczos
        (fun _ => 0) 2 0 = .ok res ∧ res.iters = 1 ∧ res.sel = [⟨"a", 2⟩] :=
  create_line_single_fit (fun _ => ⟨200, 100⟩) ⟨"a", 2⟩ 200 100 (1/20) .lanczos
    (fun _ => 0) 2 0 (by decide) (by decide) (by with_unfolding_all decide)
    (by with_unfolding_all decide) (by with_unfolding_all decide)
    (by with_unfolding_all decide) (by decide)

/-- C4: with a catalog whose only image has ratio strictly above
`max_ratio`, every pass of the selection loop overshoots and is discarded:
the embedded `create_line` exhausts any fuel bound, for every fuel — the
loop never terminates. -/
theorem create_line_oversized_diverges (decode : String → Img)
    (img : ImageRecord) (width line_height : Nat) (ratio_delta : ℚ)
    (scale_method : Resampling) (rnd : Nat → Nat) (fuel k0 : Nat)
    (hw : 0 < width) (hl : 0 < line_height)
    (ht0 : 0 ≤ ratio_delta) (ht1 : ratio_delta < 1)
    (hover : (width : ℚ) / ((line_height : ℚ) - ratio_delta * (line_height : ℚ)) <
      img.ratio) :
    create_line decode [img] width line_height ratio_delta scale_method rnd fuel
      k0 = .error .outOfFuel := by
  have hwq : (0 : ℚ) < (width : ℚ) := by exact_mod_cast hw
  have hlq : (0 : ℚ) < (line_height : ℚ) := by exact_mod_cast hl
  have hden1 : (0 : ℚ) < (line_height : ℚ) + ratio_delta * (line_height : ℚ) := by
    have := mul_nonneg ht0 hlq.le
    linarith
  have hden2 : (0 : ℚ) < (line_height : ℚ) - ratio_delta * (line_height : ℚ) := by
    have := mul_lt_mul_of_pos_right ht1 hlq
    linarith
  have hmin0 : (0 : ℚ) <
      (width : ℚ) / ((line_height : ℚ) + ratio_delta * (line_height : ℚ)) :=
    div_pos hwq hden1
  have hminmax :
      (width : ℚ) / ((line_height : ℚ) + ratio_delta * (line_height : ℚ)) ≤
      (width : ℚ) / ((line_height : ℚ) - ratio_delta * (line_height : ℚ)) :=
    div_le_div_of_nonneg_left hwq.le hden2 (by linarith [mul_nonneg ht0 hlq.le])
  simp only [create_line]
  rw [if_neg hlq.ne', if_neg hden1.ne', if_neg hden2.ne']
  simp only [select_line_oversized img _ _ rnd fuel hmin0
    (le_trans hminmax hover.le) hover fuel 0 k0]

theorem create_line_oversized_diverges_witness :
    create_line (fun _ => ⟨200, 100⟩) [⟨"a", 3⟩] 200 100 (1/20) .lanczos
      (fun _ => 0) 7 0 = .error .outOfFuel :=
  create_line_oversized_diverges (fun _ => ⟨200, 100⟩) ⟨"a", 3⟩ 200 100 (1/20)
    .lanczos (fun _ => 0) 7 0 (by decide) (by decide)
    (by with_unfolding_all decide) (by with_unfolding_all decide)
    (by with_unfolding_all decide)

/-- C9: on an empty catalog, `create_line` fails on the very first draw
(`random.choice` over an empty sequence raises `IndexError`): it neither
loops for more than one iteration nor returns a strip. -/
theorem create_line_empty_catalog (decode : String → Img)
    (width line_height : Nat) (ratio_delta : ℚ) (scale_method : Resampling)
    (rnd : Nat → Nat) (fuel k0 : Nat)
    (hw : 0 < width) (hl : 0 < line_height)
    (ht0 : 0 < ratio_delta) (ht1 : ratio_delta < 1) (hfuel : 1 ≤ fuel) :
    create_line decode [] width line_height ratio_delta scale_method rnd fuel
      k0 = .error .indexError := by
  obtain ⟨f, rfl⟩ : ∃ f, fuel = f + 1 := ⟨fuel - 1, by omega⟩
  have hwq : (0 : ℚ) < (width : ℚ) := by exact_mod_cast hw
  have hlq : (0 : ℚ) < (line_height : ℚ) := by exact_mod_cast hl
  have hden1 : (0 : ℚ) < (line_height : ℚ) + ratio_delta * (line_height : ℚ) := by
    have := mul_nonneg ht0.le hlq.le
    linarith
  have hden2 : (0 : ℚ) < (line_height : ℚ) - ratio_delta * (line_height : ℚ) := by
    have := mul_lt_mul_of_pos_right ht1 hlq
    linarith
  have hmin0 : (0 : ℚ) <
      (width : ℚ) / ((line_height : ℚ) + ratio_delta * (line_height : ℚ)) :=
    div_pos hwq hden1
  have hfill : fill_selection []
      ((width : ℚ) / ((line_height : ℚ) + ratio_delta * (line_height : ℚ)))
      rnd (f + 1) [] k0 = .error .indexError := by
    rw [fill_selection, if_pos (by simpa [sum_ratios] using hmin0)]
    have hc : choice ([] : List ImageRecord) (rnd k0) = none := rfl
    simp only [hc]
  have hsel : select_line []
      ((width : ℚ) / ((line_height : ℚ) + ratio_delta * (line_height : ℚ)))
      ((width : ℚ) / ((line_height : ℚ) - ratio_delta * (line_height : ℚ)))
      rnd (f + 1) (f + 1) 0 k0 = .error .indexError := by
    rw [select_line]
    simp only [hfill]
  simp only [create_line]
  rw [if_neg hlq.ne', if_neg hden1.ne', if_neg hden2.ne']
  simp only [hsel]

theorem create_line_empty_catalog_witness :
    create_line (fun _ => ⟨200, 100⟩) [] 200 100 (1/20) .lanczos
      (fun _ => 0) 3 0 = .error .indexError :=
  create_line_empty_catalog (fun _ => ⟨200, 100⟩) 200 100 (1/20) .lanczos
    (fun _ => 0) 3 0 (by decide) (by decide) (by with_unfolding_all decide)
    (by with_unfolding_all decide) (by decide)

/-- C5: `center_crop` on a valid image returns an image whose height is
exactly the target height and whose width is exactly
`round(targetHeight * targetRatio)`. -/
theorem center_crop_dims (img : Img) (height : Nat) (crop_ratio : ℚ)
    (scale_method : Resampling)
    (hw : 0 < img.width) (hh : 0 < img.height)
    (hth : 0 < height) (htr : 0 < crop_ratio) :
    (center_crop img height crop_ratio scale_method).height = height ∧
    (center_crop img height crop_ratio scale_method).width =
      (py_round ((height : ℚ) * crop_ratio)).toNat :=
  ⟨rfl, rfl⟩

theorem center_crop_dims_witness :
    (center_crop ⟨300, 100⟩ 100 2 .lanczos).height = 100 ∧
    (center_crop ⟨300, 100⟩ 100 2 .lanczos).width =
      (py_round (((100 : Nat) : ℚ) * 2)).toNat :=
  center_crop_dims ⟨300, 100⟩ 100 2 .lanczos (by decide) (by decide) (by decide)
    (by with_unfolding_all decide)

/-- C7: `update_path` (and hence the constructor, which only calls it)
raises `TypeError` on an argument that is neither a path nor a list of
paths, uniformly in the directory-scanning and decoding oracles — so
before any scanning can take place. -/
theorem update_path_type_error (isfile : String → Bool)
    (listdir : String → List String) (probe : String → Option (Nat × Nat)) :
    update_path isfile listdir probe .other = .error .typeError ∧
    collager_init isfile listdir probe .other = .error .typeError :=
  ⟨rfl, rfl⟩

/-- The pastes recorded by the line loop of `collage` sit at `x = 0` and
`y = (first line index + position) * line_height`. -/
theorem collage_lines_pastes (decode : String → Img)
    (image_data : List ImageRecord) (width line_height : Nat) (ratio_delta : ℚ)
    (scale_method : Resampling) (rnd : Nat → Nat) (fuel : Nat) :
    ∀ n line_n k ps its k2,
      collage_lines decode image_data width line_height ratio_delta scale_method
        rnd fuel n line_n k = .ok (ps, its, k2) →
      ∀ i p, ps.get? i = some p → p.x = 0 ∧ p.y = (line_n + i) * line_height := by
  intro n
  induction n with
  | zero =>
      intro line_n k ps its k2 h i p hp
      rw [collage_lines] at h
      obtain ⟨rfl, -, -⟩ : [] = ps ∧ ([] : List Nat) = its ∧ k = k2 := by
        simpa using h
      simp at hp
  | succ m ih =>
      intro line_n k ps its k2 h i p hp
      rw [collage_lines] at h
      split at h
      · simp at h
      · next res heq =>
          split at h
          · simp at h
          · next ps2 its2 k3 heq2 =>
              obtain ⟨rfl, -, -⟩ :
                  (⟨res.strip, 0, line_n * line_height⟩ : Paste) :: ps2 = ps ∧
                  res.iters :: its2 = its ∧ k3 = k2 := by
                simpa using h
              cases i with
              | zero =>
                  obtain rfl : (⟨res.strip, 0, line_n * line_height⟩ : Paste) = p := by
                    simpa using hp
                  exact ⟨rfl, by simp⟩
              | succ j =>
                  have hstep := ih (line_n + 1) res.next_k ps2 its2 k3 heq2 j p
                    (by simpa using hp)
                  refine ⟨hstep.1, ?_⟩
                  rw [hstep.2]
                  ring_nf

/-- C6: `collage` computes `line_height = height / lines` (floor division),
pastes line `n` at `y = n * line_height` into an intermediate image of
height `line_height * lines`, and the returned image has dimensions
exactly `(width, height)`. -/
theorem collage_dims (decode : String → Img) (image_data : List ImageRecord)
    (width height lines : Nat) (ratio_delta : ℚ) (scale_method : Resampling)
    (rnd : Nat → Nat) (fuel : Nat) (res : CollageResult)
    (hw : 0 < width) (hh : 0 < height) (hl1 : 1 ≤ lines) (hl2 : lines ≤ height)
    (h : collage decode image_data width height lines ratio_delta scale_method
        rnd fuel = .ok res) :
    res.line_height = height / lines ∧
    res.intermediate = ⟨width, (height / lines) * lines⟩ ∧
    (∀ i p, res.pastes.get? i = some p →
      p.x = 0 ∧ p.y = i * (height / lines)) ∧
    res.final = ⟨width, height⟩ := by
  simp only [collage] at h
  rw [if_neg (by omega)] at h
  split at h
  · simp at h
  · next ps its k2 heq =>
      injection h with h2
      subst h2
      refine ⟨rfl, rfl, ?_, rfl⟩
      intro i p hp
      have hstep := collage_lines_pastes decode image_data width (height / lines)
        ratio_delta scale_method rnd fuel lines 0 0 ps its k2 heq i p hp
      refine ⟨hstep.1, ?_⟩
      rw [hstep.2]
      ring_nf

theorem collage_dims_witness :
    (⟨100, ⟨200, 100⟩, [⟨⟨200, 100⟩, 0, 0⟩], [1], ⟨200, 100⟩⟩ :
        CollageResult).line_height = 100 / 1 ∧
    (⟨100, ⟨200, 100⟩, [⟨⟨200, 100⟩, 0, 0⟩], [1], ⟨200, 100⟩⟩ :
        CollageResult).intermediate = ⟨200, (100 / 1) * 1⟩ ∧
    (∀ i p, (⟨100, ⟨200, 100⟩, [⟨⟨200, 100⟩, 0, 0⟩], [1], ⟨200, 100⟩⟩ :
        CollageResult).pastes.get? i = some p →
      p.x = 0 ∧ p.y = i * (100 / 1)) ∧
    (⟨100, ⟨200, 100⟩, [⟨⟨200, 100⟩, 0, 0⟩], [1], ⟨200, 100⟩⟩ :
        CollageResult).final = ⟨200, 100⟩ :=
  collage_dims (fun _ => ⟨200, 100⟩) [⟨"a", 2⟩] 200 100 1 (1/20) .lanczos
    (fun _ => 0) 3 ⟨100, ⟨200, 100⟩, [⟨⟨200, 100⟩, 0, 0⟩], [1], ⟨200, 100⟩⟩
    (by decide) (by decide) (by decide) (by decide)
    (by with_unfolding_all decide)

/-- C10: when `lines > height`, floor division makes `line_height = 0` and
the first `create_line` call divides by zero (`width / line_height`): the
embedded `collage` returns the `ZeroDivisionError` outcome, so
`lines ≤ height` is necessary for `collage` to return an image. -/
theorem collage_zero_line_height (decode : String → Img)
    (image_data : List ImageRecord) (width height lines : Nat) (ratio_delta : ℚ)
    (scale_method : Resampling) (rnd : Nat → Nat) (fuel : Nat)
    (hw : 0 < width) (hh : 0 < height) (hlines : height < lines) :
    collage decode image_data width height lines ratio_delta scale_method rnd
      fuel = .error .zeroDivision := by
  have h0 : height / lines = 0 := Nat.div_eq_of_lt hlines
  obtain ⟨m, rfl⟩ : ∃ m, lines = m + 1 := ⟨lines - 1, by omega⟩
  have hcl : create_line decode image_data width (height / (m + 1)) ratio_delta
      scale_method rnd fuel 0 = .error .zeroDivision := by
    rw [h0]
    simp only [create_line]
    rw [if_pos (by norm_num)]
  have hcl2 : collage_lines decode image_data width (height / (m + 1)) ratio_delta
      scale_method rnd fuel (m + 1) 0 0 = .error .zeroDivision := by
    rw [collage_lines]
    simp only [hcl]
  simp only [collage]
  rw [if_neg (by omega)]
  simp only [hcl2]

theorem collage_zero_line_height_witness :
    collage (fun _ => ⟨200, 100⟩) [⟨"a", 2⟩] 200 100 150 (1/20) .lanczos
      (fun _ => 0) 3 = .error .zeroDivision :=
  collage_zero_line_height (fun _ => ⟨200, 100⟩) [⟨"a", 2⟩] 200 100 150 (1/20)
    .lanczos (fun _ => 0) 3 (by decide) (by decide) (by decide)

/-- C8 (code defect): `get_files` runs `startswith(".")` on the JOINED
path, not on the file name, so a hidden file inside a directory whose
joined path does not begin with a dot is returned: scanning directory
`photos` whose listing holds the hidden regular file `.hidden.jpg`
returns `photos/.hidden.jpg` instead of excluding it. -/
theorem get_files_keeps_hidden_file :
    get_files (fun _ => true) (fun _ => [".hidden.jpg"]) "photos" file_extensions =
      ["photos/.hidden.jpg"] := by decide

end Collager
